import Mathlib

/-!
Verification of the reproducible logic of the linear learner workshop
notebook: the train/test data splitter, the binary classification metrics
evaluator, and the endpoint teardown helper.  Machine floats are modelled
exactly as rationals with explicit IEEE-754 round-to-nearest-even where the
source multiplies by the float literal 0.7; the numpy global random
generator is modelled as explicit state passing.
-/

namespace Workshop

/-! ## Exact model of the float64 computation int(n * 0.7) -/

/-- The integer significand of the IEEE-754 double nearest to 0.7:
the double value of the literal 0.7 is mant07 / 2 ^ 53. -/
def mant07 : ℕ := 6305039478318694

/-- Fuel-driven bit length: bitlenAux fuel n is the number of binary digits
of n, provided fuel is at least n. -/
def bitlenAux : ℕ → ℕ → ℕ
  | 0, _ => 0
  | fuel + 1, n => if n = 0 then 0 else bitlenAux fuel (n / 2) + 1

/-- Number of binary digits of a natural number (0 for 0). -/
def bitlen (n : ℕ) : ℕ := bitlenAux n n

/-- Round x / 2 ^ k to the nearest integer, ties to even. -/
def roundShift (x k : ℕ) : ℕ :=
  if 2 * (x % 2 ^ k) < 2 ^ k then x / 2 ^ k
  else if 2 ^ k < 2 * (x % 2 ^ k) then x / 2 ^ k + 1
  else if (x / 2 ^ k) % 2 = 0 then x / 2 ^ k else x / 2 ^ k + 1

/-- Round a natural number to 53 significant bits, round to nearest, ties to
even: the shared significand-rounding step of IEEE-754 double arithmetic,
scaled to integers.  Exact (the identity) below 2 ^ 53. -/
def round53 (x : ℕ) : ℕ :=
  roundShift x (bitlen x - 53) * 2 ^ (bitlen x - 53)

/-- The number of training records the source computes:
train_size = int(raw_data.shape[0] * 0.7) evaluated in float64.
round53 n is the double nearest to n; multiplying it by the double 0.7
gives the exact rational round53 n * mant07 / 2 ^ 53, which float
multiplication rounds back to 53 significant bits; int() then truncates
towards zero, which for a nonnegative value is floor, i.e. natural
division by 2 ^ 53. -/
def train_size (n : ℕ) : ℕ := round53 (round53 n * mant07) / 2 ^ 53

/-! ## Data model -/

/-- One record of the dataset: a row of the raw csv matrix, features in the
leading columns and the binary label in the last column. -/
abbrev Row := List ℚ

/-! ## The numpy global random generator and the shuffle

Modelled from the spec: np.random is an external library; the spec requires
only that the shuffle be a permutation that is reproducible from the seed -
same seed and same input dataset always yield an identical permutation.
The generator is modelled as explicit state (a word of PRNG state), seeding
as discarding the previous state, and the shuffle as a selection shuffle
driven by the generator. -/

/-- State of the modelled global random generator. -/
structure RngState where
  val : ℕ
deriving DecidableEq

/-- One step of the modelled generator (a 64-bit linear congruential map). -/
def lcgNext (s : ℕ) : ℕ :=
  (6364136223846793005 * s + 1442695040888963407) % 2 ^ 64

/-- Modelled from the spec: np.random.seed(seed) reinitialises the global
generator purely from the seed, discarding whatever state it had. -/
def seedState (seed : ℕ) : RngState := ⟨lcgNext (seed % 2 ^ 64)⟩

/-- Draw an index below n (n positive) and the successor state. -/
def randBelow (st : RngState) (n : ℕ) : ℕ × RngState :=
  let v := lcgNext st.val
  ((v / 2 ^ 11) % n, ⟨v⟩)

/-- Selection shuffle with fuel equal to the list length: repeatedly draw a
position in the remainder, move that element to the output. -/
def shuffleGo {α : Type} [Inhabited α] : ℕ → RngState → List α → List α × RngState
  | 0, st, _ => ([], st)
  | k + 1, st, xs =>
    let p := randBelow st xs.length
    let rest := xs.eraseIdx p.1
    let out := shuffleGo k p.2 rest
    (xs.getD p.1 default :: out.1, out.2)

/-- Modelled from the spec: np.random.shuffle permutes the rows in place,
reproducibly from the generator state. -/
def npShuffle {α : Type} [Inhabited α] (st : RngState) (xs : List α) :
    List α × RngState :=
  shuffleGo xs.length st xs

/-! ## The splitter (source cell: np.random.seed(0); np.random.shuffle;
train_size = int(raw_data.shape[0] * 0.7); slicing) -/

/-- The split the source computes: shuffle the rows with the freshly seeded
generator, then slice at train_size.  First component is the training
subset, second the test subset. -/
def rawSplit (seed : ℕ) (data : List Row) : List Row × List Row :=
  let shuf := (npShuffle (seedState seed) data).1
  (shuf.take (train_size data.length), shuf.drop (train_size data.length))

/-- The split pipeline with the ambient global generator state made
explicit: _g0 is the np.random state before the cell runs; the cell first
seeds, which discards _g0, then shuffles and slices.  Returns the shuffled
list (the permutation) together with the training/test partition. -/
def splitRun (seed : ℕ) (_g0 : RngState) (data : List Row) :
    List Row × (List Row × List Row) :=
  let shuf := (npShuffle (seedState seed) data).1
  (shuf, (shuf.take (train_size data.length), shuf.drop (train_size data.length)))

/-- Training rows (full rows, features plus label column). -/
def train_rows (seed : ℕ) (data : List Row) : List Row := (rawSplit seed data).1

/-- Test rows. -/
def test_rows (seed : ℕ) (data : List Row) : List Row := (rawSplit seed data).2

/-- train_features = raw_data[:train_size, :-1]: every column but the last. -/
def train_features (seed : ℕ) (data : List Row) : List (List ℚ) :=
  (train_rows seed data).map List.dropLast

/-- train_labels = raw_data[:train_size, -1]: the last column. -/
def train_labels (seed : ℕ) (data : List Row) : List ℚ :=
  (train_rows seed data).map (fun r => r.getLastD 0)

/-- test_features = raw_data[train_size:, :-1]. -/
def test_features (seed : ℕ) (data : List Row) : List (List ℚ) :=
  (test_rows seed data).map List.dropLast

/-- test_labels = raw_data[train_size:, -1]. -/
def test_labels (seed : ℕ) (data : List Row) : List ℚ :=
  (test_rows seed data).map (fun r => r.getLastD 0)

/-! ## Batch chunking of the test set (np.array_split into 100 batches) -/

/-- The batch sizes np.array_split uses for n rows in k parts: the first
n mod k parts get one extra row on top of the quotient n div k. -/
def splitSizes (n k : ℕ) : List ℕ :=
  List.replicate (n % k) (n / k + 1) ++ List.replicate (k - n % k) (n / k)

/-- Cut a list into consecutive pieces of the given sizes. -/
def takeSizes {α : Type} : List ℕ → List α → List (List α)
  | [], _ => []
  | s :: ss, xs => xs.take s :: takeSizes ss (xs.drop s)

/-- np.array_split(xs, k): k consecutive batches whose sizes differ by at
most one, in order, covering every row exactly once. -/
def array_split {α : Type} (xs : List α) (k : ℕ) : List (List α) :=
  takeSizes (splitSizes xs.length k) xs

/-- The predicted label sequence the source builds: split the test features
into 100 batches, query the endpoint on each batch, extract the predicted
label of each row, and concatenate.  The remote endpoint is opaque;
modelled from the spec as a per-row function pred (the inference interface
returns per-row predicted labels). -/
def test_preds (pred : Row → ℚ) (features : List Row) : List ℚ :=
  ((array_split features 100).map (List.map pred)).flatten

/-! ## The metrics evaluator -/

/-- Elementwise truthiness conjunction: np.logical_and treats a value as
true exactly when it is nonzero. -/
def npAnd (a b : ℚ) : Bool := decide (a ≠ 0) && decide (b ≠ 0)

/-- Elementwise 1 - x, the complement trick the source applies to the
label arrays. -/
def oneMinus (xs : List ℚ) : List ℚ := xs.map (fun x => 1 - x)

/-- tp = np.logical_and(test_labels, test_preds).sum() -/
def tp (ys ps : List ℚ) : ℕ := (List.zipWith npAnd ys ps).count true

/-- fp = np.logical_and(1 - test_labels, test_preds).sum() -/
def fp (ys ps : List ℚ) : ℕ := (List.zipWith npAnd (oneMinus ys) ps).count true

/-- tn = np.logical_and(1 - test_labels, 1 - test_preds).sum() -/
def tn (ys ps : List ℚ) : ℕ :=
  (List.zipWith npAnd (oneMinus ys) (oneMinus ps)).count true

/-- fn = np.logical_and(test_labels, 1 - test_preds).sum() -/
def fn (ys ps : List ℚ) : ℕ := (List.zipWith npAnd ys (oneMinus ps)).count true

/-- Modelled from the spec: the recall formula is a deliberately blanked
exercise placeholder in the source (recall = TODO); the spec supplies
recall = tp / (tp + fn), undefined when the denominator is 0.  The
undefined (not-a-number) condition is modelled as none. -/
def recallM (ys ps : List ℚ) : Option ℚ :=
  if tp ys ps + fn ys ps = 0 then none
  else some ((tp ys ps : ℚ) / ((tp ys ps : ℚ) + (fn ys ps : ℚ)))

/-- Modelled from the spec: the precision formula is a deliberately blanked
exercise placeholder in the source (precision = TODO); the spec supplies
precision = tp / (tp + fp), undefined when the denominator is 0. -/
def precisionM (ys ps : List ℚ) : Option ℚ :=
  if tp ys ps + fp ys ps = 0 then none
  else some ((tp ys ps : ℚ) / ((tp ys ps : ℚ) + (fp ys ps : ℚ)))

/-- accuracy = (tp + tn) / (tp + fp + tn + fn) from the source; the
denominator written exactly as in the source.  A zero denominator would be
0 / 0 = NaN in numpy, modelled as none. -/
def accuracyM (ys ps : List ℚ) : Option ℚ :=
  if tp ys ps + fp ys ps + tn ys ps + fn ys ps = 0 then none
  else some (((tp ys ps : ℚ) + (tn ys ps : ℚ)) /
    ((tp ys ps : ℚ) + (fp ys ps : ℚ) + (tn ys ps : ℚ) + (fn ys ps : ℚ)))

/-- f1 = 2 * precision * recall / (precision + recall) from the source;
undefined (NaN, modelled as none) when either factor is undefined or the
denominator precision + recall is 0. -/
def f1M (ys ps : List ℚ) : Option ℚ :=
  match precisionM ys ps, recallM ys ps with
  | some p, some r => if p + r = 0 then none else some (2 * p * r / (p + r))
  | _, _ => none

/-- The dictionary the evaluator returns. -/
structure MetricsResult where
  TP : ℕ
  FP : ℕ
  TN : ℕ
  FN : ℕ
  Precision : Option ℚ
  Recall : Option ℚ
  Accuracy : Option ℚ
  F1 : Option ℚ
  Model : String
deriving DecidableEq

/-- Failure of the evaluator call.  Feeding label arrays of different
lengths into np.logical_and makes numpy raise a broadcast ValueError, and
the pd.crosstab call in the default verbose path rejects any length
mismatch as well; both are modelled as this error. -/
inductive EvalError where
  | lengthMismatch
deriving DecidableEq

/-- Metric computation of the evaluator on the true label sequence and the
predicted label sequence. -/
def metricsOf (ys ps : List ℚ) (model : String) : Except EvalError MetricsResult :=
  if ys.length = ps.length then
    Except.ok
      { TP := tp ys ps, FP := fp ys ps, TN := tn ys ps, FN := fn ys ps
        Precision := precisionM ys ps, Recall := recallM ys ps
        Accuracy := accuracyM ys ps, F1 := f1M ys ps, Model := model }
  else Except.error EvalError.lengthMismatch

/-- The evaluate helper: chunk the test features, query the endpoint,
concatenate the predicted labels and score them against the true labels. -/
def evaluate (pred : Row → ℚ) (features : List Row) (ys : List ℚ)
    (model : String) : Except EvalError MetricsResult :=
  metricsOf ys (test_preds pred features) model

/-! ## Spec-side descriptions of the confusion counts, for comparison -/

/-- The wording of the spec: true positive = count of positions where both
true and predicted are 1. -/
def specTP (ys ps : List ℚ) : ℕ :=
  (ys.zip ps).countP fun q => decide (q.1 = 1 ∧ q.2 = 1)

/-- Spec wording: false positive = count where true is 0 and predicted is 1. -/
def specFP (ys ps : List ℚ) : ℕ :=
  (ys.zip ps).countP fun q => decide (q.1 = 0 ∧ q.2 = 1)

/-- Spec wording: true negative = count where both are 0. -/
def specTN (ys ps : List ℚ) : ℕ :=
  (ys.zip ps).countP fun q => decide (q.1 = 0 ∧ q.2 = 0)

/-- Spec wording: false negative = count where true is 1 and predicted is 0. -/
def specFN (ys ps : List ℚ) : ℕ :=
  (ys.zip ps).countP fun q => decide (q.1 = 1 ∧ q.2 = 0)

/-- A label sequence is binary when every entry is 0 or 1. -/
def IsBinary (xs : List ℚ) : Prop := ∀ x ∈ xs, x = 0 ∨ x = 1

instance decIsBinary (xs : List ℚ) : Decidable (IsBinary xs) :=
  List.decidableBAll _ xs

/-! ## The endpoint reclaimer -/

/-- What the catch-all branch of delete_endpoint distinguishes: either the
remove call went through, or it failed and the helper reports the endpoint
as already deleted. -/
inductive DeleteOutcome where
  | deleted
  | alreadyDeleted
deriving DecidableEq

/-- Modelled from the spec: the external teardown interface holds a set of
live endpoint names; the remove operation fails exactly when the named
resource does not exist, and otherwise removes it. -/
def serviceDelete (s : List String) (name : String) : Except Unit (List String) :=
  if name ∈ s then Except.ok (s.filter fun e => e != name)
  else Except.error ()

/-- The delete_endpoint helper: try the remove call; on any failure print
the endpoint as already deleted and return normally.  The helper itself
never fails, which the total return type makes explicit. -/
def delete_endpoint (s : List String) (name : String) : List String × DeleteOutcome :=
  match serviceDelete s name with
  | Except.ok s2 => (s2, DeleteOutcome.deleted)
  | Except.error _ => (s, DeleteOutcome.alreadyDeleted)

/-! ## Lemmas about the float64 model -/

theorem bitlenAux_zero (k : ℕ) : bitlenAux k 0 = 0 := by
  cases k <;> simp [bitlenAux]

theorem bitlenAux_spec : ∀ fuel x, x ≤ fuel → x ≠ 0 →
    2 ^ (bitlenAux fuel x - 1) ≤ x ∧ x < 2 ^ bitlenAux fuel x := by
  intro fuel
  induction fuel with
  | zero => intro x hx h0; omega
  | succ k ih =>
    intro x hx h0
    rw [bitlenAux, if_neg h0]
    by_cases hhalf : x / 2 = 0
    · have hx1 : x = 1 := by omega
      subst hx1
      simp [hhalf, bitlenAux_zero]
    · have hle : x / 2 ≤ k := by omega
      obtain ⟨hl, hu⟩ := ih (x / 2) hle hhalf
      constructor
      · have hb : 1 ≤ bitlenAux k (x / 2) := by
          by_contra hcon
          have : bitlenAux k (x / 2) = 0 := by omega
          rw [this] at hu
          omega
        have : bitlenAux k (x / 2) + 1 - 1 = bitlenAux k (x / 2) - 1 + 1 := by omega
        rw [this, pow_succ]
        omega
      · rw [pow_succ]
        omega

theorem bitlen_spec (x : ℕ) (h0 : x ≠ 0) :
    2 ^ (bitlen x - 1) ≤ x ∧ x < 2 ^ bitlen x :=
  bitlenAux_spec x x le_rfl h0

theorem roundShift_le (x k : ℕ) : roundShift x k ≤ x / 2 ^ k + 1 := by
  unfold roundShift
  split
  · omega
  · split
    · omega
    · split <;> omega

theorem round53_mul_le (x : ℕ) : round53 x * 2 ^ 52 ≤ x * (2 ^ 52 + 1) := by
  unfold round53
  by_cases hx : x = 0
  · subst hx
    simp [bitlen, bitlenAux, roundShift]
  by_cases hk : bitlen x ≤ 53
  · have hk0 : bitlen x - 53 = 0 := by omega
    rw [hk0]
    have hid : roundShift x 0 = x := by
      unfold roundShift
      simp [Nat.mod_one]
    rw [hid]
    nlinarith [Nat.zero_le x]
  · set k := bitlen x - 53 with hkdef
    have hklb : 52 + k = bitlen x - 1 := by omega
    have hxlb : 2 ^ (52 + k) ≤ x := by
      rw [hklb]
      exact (bitlen_spec x hx).1
    have h1 : roundShift x k * 2 ^ k ≤ (x / 2 ^ k + 1) * 2 ^ k :=
      Nat.mul_le_mul_right _ (roundShift_le x k)
    have h2 : (x / 2 ^ k + 1) * 2 ^ k ≤ x + 2 ^ k := by
      rw [Nat.add_mul, one_mul]
      have := Nat.div_mul_le_self x (2 ^ k)
      omega
    have h3 : (x + 2 ^ k) * 2 ^ 52 ≤ x * (2 ^ 52 + 1) := by
      rw [Nat.add_mul, Nat.mul_add, Nat.mul_one]
      have : 2 ^ k * 2 ^ 52 ≤ x := by
        calc 2 ^ k * 2 ^ 52 = 2 ^ (52 + k) := by rw [← pow_add]; ring_nf
        _ ≤ x := hxlb
      omega
    calc roundShift x k * 2 ^ k * 2 ^ 52 ≤ (x + 2 ^ k) * 2 ^ 52 :=
      Nat.mul_le_mul_right _ (le_trans h1 h2)
    _ ≤ x * (2 ^ 52 + 1) := h3

theorem train_size_lt (n : ℕ) (hn : 1 ≤ n) : train_size n < n := by
  unfold train_size
  rw [Nat.div_lt_iff_lt_mul (by positivity)]
  have h1 := round53_mul_le (round53 n * mant07)
  have h2 := round53_mul_le n
  have h3 : round53 n * mant07 * (2 ^ 52 + 1) * 2 ^ 52 ≤
      n * (2 ^ 52 + 1) * (mant07 * (2 ^ 52 + 1)) := by
    calc round53 n * mant07 * (2 ^ 52 + 1) * 2 ^ 52
        = round53 n * 2 ^ 52 * (mant07 * (2 ^ 52 + 1)) := by ring
    _ ≤ n * (2 ^ 52 + 1) * (mant07 * (2 ^ 52 + 1)) :=
        Nat.mul_le_mul_right _ h2
    _ = n * (2 ^ 52 + 1) * (mant07 * (2 ^ 52 + 1)) := rfl
  have hkey : round53 (round53 n * mant07) * (2 ^ 52 * 2 ^ 52) ≤
      n * ((2 ^ 52 + 1) * (2 ^ 52 + 1) * mant07) := by
    calc round53 (round53 n * mant07) * (2 ^ 52 * 2 ^ 52)
        = round53 (round53 n * mant07) * 2 ^ 52 * 2 ^ 52 := by ring
    _ ≤ round53 n * mant07 * (2 ^ 52 + 1) * 2 ^ 52 := Nat.mul_le_mul_right _ h1
    _ ≤ n * (2 ^ 52 + 1) * (mant07 * (2 ^ 52 + 1)) := h3
    _ = n * ((2 ^ 52 + 1) * (2 ^ 52 + 1) * mant07) := by ring
  have hconst : (2 ^ 52 + 1) * (2 ^ 52 + 1) * mant07 < 2 ^ 53 * (2 ^ 52 * 2 ^ 52) := by
    norm_num [mant07]
  have hlt : round53 (round53 n * mant07) * (2 ^ 52 * 2 ^ 52) <
      n * 2 ^ 53 * (2 ^ 52 * 2 ^ 52) := by
    calc round53 (round53 n * mant07) * (2 ^ 52 * 2 ^ 52)
        ≤ n * ((2 ^ 52 + 1) * (2 ^ 52 + 1) * mant07) := hkey
    _ < n * (2 ^ 53 * (2 ^ 52 * 2 ^ 52)) :=
        mul_lt_mul_of_pos_left hconst (by omega)
    _ = n * 2 ^ 53 * (2 ^ 52 * 2 ^ 52) := by ring
  exact lt_of_mul_lt_mul_right hlt (Nat.zero_le _)

theorem train_size_le (n : ℕ) : train_size n ≤ n := by
  rcases Nat.eq_zero_or_pos n with h0 | h1
  · subst h0
    rfl
  · exact le_of_lt (train_size_lt n h1)

/-! ## Lemmas about the shuffle and the split -/

theorem getElem_cons_eraseIdx_perm {α : Type} (xs : List α) (j : ℕ)
    (h : j < xs.length) : (xs[j] :: xs.eraseIdx j).Perm xs := by
  rw [List.eraseIdx_eq_take_drop_succ]
  have h1 : xs.take j ++ xs[j] :: xs.drop (j + 1) = xs := by
    rw [List.getElem_cons_drop, List.take_append_drop]
  have h2 : (xs[j] :: (xs.take j ++ xs.drop (j + 1))).Perm
      (xs.take j ++ xs[j] :: xs.drop (j + 1)) := List.perm_middle.symm
  have h3 : (xs.take j ++ xs[j] :: xs.drop (j + 1)).Perm xs := by
    rw [h1]
  exact h2.trans h3

theorem shuffleGo_perm {α : Type} [Inhabited α] :
    ∀ (k : ℕ) (st : RngState) (xs : List α), xs.length = k →
      (shuffleGo k st xs).1.Perm xs := by
  intro k
  induction k with
  | zero =>
    intro st xs hlen
    have hnil : xs = [] := List.length_eq_zero.mp hlen
    subst hnil
    simp [shuffleGo]
  | succ m ih =>
    intro st xs hlen
    have hpos : 0 < xs.length := by omega
    have hj : (randBelow st xs.length).1 < xs.length := by
      unfold randBelow
      exact Nat.mod_lt _ hpos
    have hrest : (xs.eraseIdx (randBelow st xs.length).1).length = m := by
      rw [List.length_eraseIdx_of_lt hj]
      omega
    have hperm := ih (randBelow st xs.length).2
      (xs.eraseIdx (randBelow st xs.length).1) hrest
    have hgd : xs.getD (randBelow st xs.length).1 default =
        xs[(randBelow st xs.length).1] := by
      rw [List.getD_eq_getElem?_getD, List.getElem?_eq_getElem hj]
      rfl
    show (xs.getD (randBelow st xs.length).1 default ::
      (shuffleGo m (randBelow st xs.length).2
        (xs.eraseIdx (randBelow st xs.length).1)).1).Perm xs
    rw [hgd]
    exact (hperm.cons _).trans (getElem_cons_eraseIdx_perm xs _ hj)

theorem npShuffle_perm {α : Type} [Inhabited α] (st : RngState) (xs : List α) :
    (npShuffle st xs).1.Perm xs :=
  shuffleGo_perm xs.length st xs rfl

theorem npShuffle_length {α : Type} [Inhabited α] (st : RngState) (xs : List α) :
    (npShuffle st xs).1.length = xs.length :=
  (npShuffle_perm st xs).length_eq

theorem rawSplit_append_perm (seed : ℕ) (data : List Row) :
    ((rawSplit seed data).1 ++ (rawSplit seed data).2).Perm data := by
  unfold rawSplit
  rw [List.take_append_drop]
  exact npShuffle_perm _ _

theorem rawSplit_length_fst (seed : ℕ) (data : List Row) :
    (rawSplit seed data).1.length = train_size data.length := by
  unfold rawSplit
  rw [List.length_take, npShuffle_length]
  exact min_eq_left (train_size_le data.length)

theorem rawSplit_length_snd (seed : ℕ) (data : List Row) :
    (rawSplit seed data).2.length = data.length - train_size data.length := by
  unfold rawSplit
  rw [List.length_drop, npShuffle_length]

/-! ## Lemmas about the confusion counts -/

theorem IsBinary.head {a : ℚ} {xs : List ℚ} (h : IsBinary (a :: xs)) :
    a = 0 ∨ a = 1 :=
  h a (List.mem_cons_self a xs)

theorem IsBinary.tail {a : ℚ} {xs : List ℚ} (h : IsBinary (a :: xs)) :
    IsBinary xs :=
  fun x hx => h x (List.mem_cons_of_mem a hx)

theorem tp_cons (a b : ℚ) (ys ps : List ℚ) :
    tp (a :: ys) (b :: ps) = tp ys ps + (if npAnd a b = true then 1 else 0) := by
  simp [tp, List.count_cons]

theorem fp_cons (a b : ℚ) (ys ps : List ℚ) :
    fp (a :: ys) (b :: ps) =
      fp ys ps + (if npAnd (1 - a) b = true then 1 else 0) := by
  simp [fp, oneMinus, List.count_cons]

theorem tn_cons (a b : ℚ) (ys ps : List ℚ) :
    tn (a :: ys) (b :: ps) =
      tn ys ps + (if npAnd (1 - a) (1 - b) = true then 1 else 0) := by
  simp [tn, oneMinus, List.count_cons]

theorem fn_cons (a b : ℚ) (ys ps : List ℚ) :
    fn (a :: ys) (b :: ps) =
      fn ys ps + (if npAnd a (1 - b) = true then 1 else 0) := by
  simp [fn, oneMinus, List.count_cons]

theorem specTP_cons (a b : ℚ) (ys ps : List ℚ) :
    specTP (a :: ys) (b :: ps) =
      specTP ys ps + (if a = 1 ∧ b = 1 then 1 else 0) := by
  simp [specTP, List.countP_cons]

theorem specFP_cons (a b : ℚ) (ys ps : List ℚ) :
    specFP (a :: ys) (b :: ps) =
      specFP ys ps + (if a = 0 ∧ b = 1 then 1 else 0) := by
  simp [specFP, List.countP_cons]

theorem specTN_cons (a b : ℚ) (ys ps : List ℚ) :
    specTN (a :: ys) (b :: ps) =
      specTN ys ps + (if a = 0 ∧ b = 0 then 1 else 0) := by
  simp [specTN, List.countP_cons]

theorem specFN_cons (a b : ℚ) (ys ps : List ℚ) :
    specFN (a :: ys) (b :: ps) =
      specFN ys ps + (if a = 1 ∧ b = 0 then 1 else 0) := by
  simp [specFN, List.countP_cons]

theorem counts_eq_spec : ∀ ys ps : List ℚ, IsBinary ys → IsBinary ps →
    tp ys ps = specTP ys ps ∧ fp ys ps = specFP ys ps ∧
    tn ys ps = specTN ys ps ∧ fn ys ps = specFN ys ps := by
  intro ys
  induction ys with
  | nil =>
    intro ps _ _
    simp [tp, fp, tn, fn, specTP, specFP, specTN, specFN, oneMinus]
  | cons a ys ih =>
    intro ps hya hpa
    cases ps with
    | nil =>
      simp [tp, fp, tn, fn, specTP, specFP, specTN, specFN, oneMinus]
    | cons b ps =>
      obtain ⟨h1, h2, h3, h4⟩ := ih ps hya.tail hpa.tail
      rw [tp_cons, fp_cons, tn_cons, fn_cons, specTP_cons, specFP_cons,
        specTN_cons, specFN_cons, h1, h2, h3, h4]
      rcases hya.head with ha | ha <;> rcases hpa.head with hb | hb <;>
        subst ha <;> subst hb <;>
        refine ⟨?_, ?_, ?_, ?_⟩ <;> norm_num [npAnd]

theorem counts_sum : ∀ ys ps : List ℚ, IsBinary ys → IsBinary ps →
    ys.length = ps.length →
    tp ys ps + fp ys ps + tn ys ps + fn ys ps = ys.length := by
  intro ys
  induction ys with
  | nil =>
    intro ps _ _ _
    simp [tp, fp, tn, fn, oneMinus]
  | cons a ys ih =>
    intro ps hya hpa hlen
    cases ps with
    | nil => simp at hlen
    | cons b ps =>
      have hrec := ih ps hya.tail hpa.tail (by simpa using hlen)
      rw [tp_cons, fp_cons, tn_cons, fn_cons, List.length_cons]
      rcases hya.head with ha | ha <;> rcases hpa.head with hb | hb <;>
        subst ha <;> subst hb <;> norm_num [npAnd] <;> omega

/-! ## Lemmas about the batch chunking -/

theorem takeSizes_flatten {α : Type} :
    ∀ (ss : List ℕ) (xs : List α), (takeSizes ss xs).flatten = xs.take ss.sum := by
  intro ss
  induction ss with
  | nil => intro xs; simp [takeSizes]
  | cons s ss ih =>
    intro xs
    simp only [takeSizes, List.flatten_cons, ih, List.sum_cons]
    rw [List.take_add]

theorem splitSizes_sum (n k : ℕ) (hk : 0 < k) : (splitSizes n k).sum = n := by
  unfold splitSizes
  rw [List.sum_append, List.sum_const_nat, List.sum_const_nat]
  have hmod : n % k < k := Nat.mod_lt n hk
  have h1 : n % k * (n / k + 1) = n % k * (n / k) + n % k := by ring
  have h2 : (k - n % k) * (n / k) + n % k * (n / k) = k * (n / k) := by
    rw [← Nat.add_mul]
    congr 1
    omega
  have h3 : k * (n / k) + n % k = n := Nat.div_add_mod n k
  omega

theorem takeSizes_map {α β : Type} (f : α → β) :
    ∀ (ss : List ℕ) (xs : List α),
      takeSizes ss (xs.map f) = (takeSizes ss xs).map (List.map f) := by
  intro ss
  induction ss with
  | nil => intro xs; simp [takeSizes]
  | cons s ss ih =>
    intro xs
    simp only [takeSizes, List.map_cons, List.map_take]
    rw [← List.map_drop, ih]

theorem test_preds_eq_map (pred : Row → ℚ) (xs : List Row) :
    test_preds pred xs = xs.map pred := by
  unfold test_preds array_split
  rw [← takeSizes_map, ← List.length_map xs pred, takeSizes_flatten,
    splitSizes_sum _ _ (by norm_num), List.take_length]

/-! ## Lemmas about the derived metrics -/

theorem recallM_of_pos (ys ps : List ℚ) (h : tp ys ps + fn ys ps ≠ 0) :
    recallM ys ps =
      some ((tp ys ps : ℚ) / ((tp ys ps : ℚ) + (fn ys ps : ℚ))) := by
  unfold recallM
  rw [if_neg h]

theorem precisionM_of_pos (ys ps : List ℚ) (h : tp ys ps + fp ys ps ≠ 0) :
    precisionM ys ps =
      some ((tp ys ps : ℚ) / ((tp ys ps : ℚ) + (fp ys ps : ℚ))) := by
  unfold precisionM
  rw [if_neg h]

theorem accuracyM_of_binary (ys ps : List ℚ) (hy : IsBinary ys)
    (hp : IsBinary ps) (hlen : ys.length = ps.length) (hne : ys.length ≠ 0) :
    accuracyM ys ps =
      some (((tp ys ps : ℚ) + (tn ys ps : ℚ)) / (ys.length : ℚ)) := by
  have hsum := counts_sum ys ps hy hp hlen
  unfold accuracyM
  rw [if_neg (by omega)]
  have hcast : (tp ys ps : ℚ) + (fp ys ps : ℚ) + (tn ys ps : ℚ) + (fn ys ps : ℚ)
      = (ys.length : ℚ) := by
    push_cast [← hsum]
    ring
  rw [hcast]

theorem f1M_of_pos (ys ps : List ℚ) (h1 : tp ys ps + fn ys ps ≠ 0)
    (h2 : tp ys ps + fp ys ps ≠ 0)
    (h3 : (tp ys ps : ℚ) / ((tp ys ps : ℚ) + (fp ys ps : ℚ)) +
      (tp ys ps : ℚ) / ((tp ys ps : ℚ) + (fn ys ps : ℚ)) ≠ 0) :
    f1M ys ps = some (2 * ((tp ys ps : ℚ) / ((tp ys ps : ℚ) + (fp ys ps : ℚ))) *
        ((tp ys ps : ℚ) / ((tp ys ps : ℚ) + (fn ys ps : ℚ))) /
      ((tp ys ps : ℚ) / ((tp ys ps : ℚ) + (fp ys ps : ℚ)) +
        (tp ys ps : ℚ) / ((tp ys ps : ℚ) + (fn ys ps : ℚ)))) := by
  unfold f1M
  rw [precisionM_of_pos ys ps h2, recallM_of_pos ys ps h1]
  simp only []
  rw [if_neg h3]

/-! ## Claim C1 -/

/-- Claim C1, amended.  The source computes the training size as
int(n * 0.7) in float64 arithmetic, which differs from floor(0.7 * n) for
some n (see the counterexample below); with that train_size the rest of the
claim holds: the training subset has train_size n records, the test subset
has n - train_size n records, the concatenation of the two subsets is a
permutation of the original dataset (so no record occurrence is lost or
duplicated: the partition is without replacement), and for every row value
the occurrence counts in the two subsets add up to its count in the
original dataset. -/
theorem splitter_sizes_and_partition (seed : ℕ) (data : List Row) :
    (rawSplit seed data).1.length = train_size data.length ∧
    (rawSplit seed data).2.length = data.length - train_size data.length ∧
    ((rawSplit seed data).1 ++ (rawSplit seed data).2).Perm data ∧
    ∀ r : Row, (rawSplit seed data).1.countP (fun x => decide (x = r)) +
      (rawSplit seed data).2.countP (fun x => decide (x = r)) =
      data.countP (fun x => decide (x = r)) := by
  refine ⟨rawSplit_length_fst seed data, rawSplit_length_snd seed data,
    rawSplit_append_perm seed data, fun r => ?_⟩
  rw [← List.countP_append]
  exact (rawSplit_append_perm seed data).countP_eq _

/-- Claim C1, counterexample to the claim as stated: on a dataset of 90
records the training subset has int(90 * 0.7) = 62 records, because the
float64 product 90 * 0.7 is slightly below 63 and int() truncates, while
floor(0.7 * 90) = 63. -/
theorem splitter_floor_counterexample :
    (List.replicate 90 ([0] : Row)).length = 90 ∧
    (rawSplit 0 (List.replicate 90 ([0] : Row))).1.length = 62 ∧
    7 * 90 / 10 = 63 ∧
    (rawSplit 0 (List.replicate 90 ([0] : Row))).1.length ≠
      7 * (List.replicate 90 ([0] : Row)).length / 10 := by
  have hlen : (List.replicate 90 ([0] : Row)).length = 90 :=
    List.length_replicate 90 _
  have hts : (rawSplit 0 (List.replicate 90 ([0] : Row))).1.length = 62 := by
    rw [rawSplit_length_fst, hlen]
    rfl
  refine ⟨hlen, hts, by norm_num, ?_⟩
  rw [hts, hlen]
  norm_num

/-! ## Claim C4 -/

/-- Claim C4: the split is deterministic in the seed and the input.  The
split pipeline first calls np.random.seed, which reinitialises the global
generator purely from the seed, so the resulting permutation and the
training/test partition do not depend on the generator state the process
had before the cell ran: two runs with the same seed and dataset agree. -/
theorem splitter_deterministic (seed : ℕ) (data : List Row)
    (g0 g1 : RngState) (_hne : data ≠ []) :
    splitRun seed g0 data = splitRun seed g1 data := rfl

/-- Witness for C4 at a concrete dataset and two distinct prior states. -/
theorem splitter_deterministic_witness :
    ([[(1 : ℚ)]] : List Row) ≠ [] ∧
    splitRun 0 ⟨0⟩ [[(1 : ℚ)]] = splitRun 0 ⟨1⟩ [[(1 : ℚ)]] :=
  ⟨by simp, splitter_deterministic 0 [[(1 : ℚ)]] ⟨0⟩ ⟨1⟩ (by simp)⟩

/-! ## Claim C6 -/

/-- Claim C6, counterexample to the claim as stated: the source performs no
input validation at all.  On the empty dataset the splitter returns the
empty split instead of failing: rawSplit is a total function (its type has
no error case, mirroring the source, which contains no InvalidInputError
and no check on the fraction or the dataset). -/
theorem splitter_accepts_empty_dataset : rawSplit 0 [] = ([], []) := rfl

/-- Claim C6, amended: the splitter performs no validation.  It is total:
for every seed and every dataset, including the empty one, it returns a
split partitioning the dataset (and the fraction is the fixed literal 0.7,
never checked against any range). -/
theorem splitter_no_input_validation (seed : ℕ) (data : List Row) :
    ((rawSplit seed data).1 ++ (rawSplit seed data).2).Perm data ∧
    rawSplit seed [] = ([], []) :=
  ⟨rawSplit_append_perm seed data, rfl⟩

/-! ## Claim C2 -/

/-- Claim C2: on equal-length binary label sequences the confusion counts
computed with np.logical_and and the 1 - x complement coincide with the
descriptions of the spec (tp counts positions where both are 1, fp where
true is 0 and predicted is 1, tn where both are 0, fn where true is 1 and
predicted is 0); and on the concrete example of the spec,
true = [1,0,1,1,0] and predicted = [1,0,0,1,0], they are
tp = 2, fp = 0, tn = 2, fn = 1. -/
theorem evaluator_confusion_counts :
    (∀ ys ps : List ℚ, IsBinary ys → IsBinary ps → ys.length = ps.length →
      tp ys ps = specTP ys ps ∧ fp ys ps = specFP ys ps ∧
      tn ys ps = specTN ys ps ∧ fn ys ps = specFN ys ps) ∧
    (tp [1, 0, 1, 1, 0] [1, 0, 0, 1, 0] = 2 ∧
     fp [1, 0, 1, 1, 0] [1, 0, 0, 1, 0] = 0 ∧
     tn [1, 0, 1, 1, 0] [1, 0, 0, 1, 0] = 2 ∧
     fn [1, 0, 1, 1, 0] [1, 0, 0, 1, 0] = 1) := by
  constructor
  · intro ys ps hy hp _
    exact counts_eq_spec ys ps hy hp
  · refine ⟨?_, ?_, ?_, ?_⟩ <;>
      simp [tp, fp, tn, fn, oneMinus, npAnd, List.count_cons]

/-- Witness for C2 at the concrete label sequences of the spec. -/
theorem evaluator_confusion_counts_witness :
    IsBinary [1, 0, 1, 1, 0] ∧ IsBinary [1, 0, 0, 1, 0] ∧
    ([1, 0, 1, 1, 0] : List ℚ).length = ([1, 0, 0, 1, 0] : List ℚ).length ∧
    (tp [1, 0, 1, 1, 0] [1, 0, 0, 1, 0] = specTP [1, 0, 1, 1, 0] [1, 0, 0, 1, 0] ∧
     fp [1, 0, 1, 1, 0] [1, 0, 0, 1, 0] = specFP [1, 0, 1, 1, 0] [1, 0, 0, 1, 0] ∧
     tn [1, 0, 1, 1, 0] [1, 0, 0, 1, 0] = specTN [1, 0, 1, 1, 0] [1, 0, 0, 1, 0] ∧
     fn [1, 0, 1, 1, 0] [1, 0, 0, 1, 0] = specFN [1, 0, 1, 1, 0] [1, 0, 0, 1, 0]) :=
  ⟨by decide, by decide, by decide,
    evaluator_confusion_counts.1 [1, 0, 1, 1, 0] [1, 0, 0, 1, 0]
      (by decide) (by decide) (by decide)⟩

/-! ## Claim C3 -/

/-- Claim C3: on equal-length binary sequences whose confusion counts make
every denominator nonzero, the evaluator returns
recall = tp / (tp + fn), precision = tp / (tp + fp),
accuracy = (tp + tn) / total count, and
F1 = 2 * precision * recall / (precision + recall).
The recall and precision formulas are spec-modelled (blanked TODO
placeholders in the source); accuracy and F1 are the formulas of the
source, with the accuracy denominator tp + fp + tn + fn shown equal to the
total count for binary inputs of equal length. -/
theorem evaluator_metric_formulas (ys ps : List ℚ) (m : String)
    (hy : IsBinary ys) (hp : IsBinary ps) (hlen : ys.length = ps.length)
    (hrec : tp ys ps + fn ys ps ≠ 0) (hprec : tp ys ps + fp ys ps ≠ 0)
    (hf1 : (tp ys ps : ℚ) / ((tp ys ps : ℚ) + (fp ys ps : ℚ)) +
      (tp ys ps : ℚ) / ((tp ys ps : ℚ) + (fn ys ps : ℚ)) ≠ 0) :
    metricsOf ys ps m = Except.ok
      { TP := tp ys ps, FP := fp ys ps, TN := tn ys ps, FN := fn ys ps
        Precision := some ((tp ys ps : ℚ) / ((tp ys ps : ℚ) + (fp ys ps : ℚ)))
        Recall := some ((tp ys ps : ℚ) / ((tp ys ps : ℚ) + (fn ys ps : ℚ)))
        Accuracy := some (((tp ys ps : ℚ) + (tn ys ps : ℚ)) / (ys.length : ℚ))
        F1 := some (2 * ((tp ys ps : ℚ) / ((tp ys ps : ℚ) + (fp ys ps : ℚ))) *
            ((tp ys ps : ℚ) / ((tp ys ps : ℚ) + (fn ys ps : ℚ))) /
          ((tp ys ps : ℚ) / ((tp ys ps : ℚ) + (fp ys ps : ℚ)) +
            (tp ys ps : ℚ) / ((tp ys ps : ℚ) + (fn ys ps : ℚ))))
        Model := m } := by
  have hne : ys.length ≠ 0 := by
    intro h0
    have hnil : ys = [] := List.length_eq_zero.mp h0
    subst hnil
    simp [tp, fn, oneMinus] at hrec
  unfold metricsOf
  rw [if_pos hlen, recallM_of_pos ys ps hrec, precisionM_of_pos ys ps hprec,
    accuracyM_of_binary ys ps hy hp hlen hne, f1M_of_pos ys ps hrec hprec hf1]

/-- Witness for C3 at the concrete label sequences of the spec, where
tp = 2, fp = 0, tn = 2, fn = 1, so recall = 2/3, precision = 1,
accuracy = 4/5 and F1 = 4/5. -/
theorem evaluator_metric_formulas_witness :
    (tp [1, 0, 1, 1, 0] [1, 0, 0, 1, 0] + fn [1, 0, 1, 1, 0] [1, 0, 0, 1, 0] ≠ 0) ∧
    metricsOf [1, 0, 1, 1, 0] [1, 0, 0, 1, 0] "defaults" = Except.ok
      { TP := tp [1, 0, 1, 1, 0] [1, 0, 0, 1, 0]
        FP := fp [1, 0, 1, 1, 0] [1, 0, 0, 1, 0]
        TN := tn [1, 0, 1, 1, 0] [1, 0, 0, 1, 0]
        FN := fn [1, 0, 1, 1, 0] [1, 0, 0, 1, 0]
        Precision := some ((tp [1, 0, 1, 1, 0] [1, 0, 0, 1, 0] : ℚ) /
          ((tp [1, 0, 1, 1, 0] [1, 0, 0, 1, 0] : ℚ) + (fp [1, 0, 1, 1, 0] [1, 0, 0, 1, 0] : ℚ)))
        Recall := some ((tp [1, 0, 1, 1, 0] [1, 0, 0, 1, 0] : ℚ) /
          ((tp [1, 0, 1, 1, 0] [1, 0, 0, 1, 0] : ℚ) + (fn [1, 0, 1, 1, 0] [1, 0, 0, 1, 0] : ℚ)))
        Accuracy := some (((tp [1, 0, 1, 1, 0] [1, 0, 0, 1, 0] : ℚ) +
            (tn [1, 0, 1, 1, 0] [1, 0, 0, 1, 0] : ℚ)) /
          (([1, 0, 1, 1, 0] : List ℚ).length : ℚ))
        F1 := some (2 * ((tp [1, 0, 1, 1, 0] [1, 0, 0, 1, 0] : ℚ) /
              ((tp [1, 0, 1, 1, 0] [1, 0, 0, 1, 0] : ℚ) + (fp [1, 0, 1, 1, 0] [1, 0, 0, 1, 0] : ℚ))) *
            ((tp [1, 0, 1, 1, 0] [1, 0, 0, 1, 0] : ℚ) /
              ((tp [1, 0, 1, 1, 0] [1, 0, 0, 1, 0] : ℚ) + (fn [1, 0, 1, 1, 0] [1, 0, 0, 1, 0] : ℚ))) /
          ((tp [1, 0, 1, 1, 0] [1, 0, 0, 1, 0] : ℚ) /
              ((tp [1, 0, 1, 1, 0] [1, 0, 0, 1, 0] : ℚ) + (fp [1, 0, 1, 1, 0] [1, 0, 0, 1, 0] : ℚ)) +
            (tp [1, 0, 1, 1, 0] [1, 0, 0, 1, 0] : ℚ) /
              ((tp [1, 0, 1, 1, 0] [1, 0, 0, 1, 0] : ℚ) + (fn [1, 0, 1, 1, 0] [1, 0, 0, 1, 0] : ℚ))))
        Model := "defaults" } :=
  ⟨by simp [tp, fn, oneMinus, npAnd, List.count_cons],
    evaluator_metric_formulas [1, 0, 1, 1, 0] [1, 0, 0, 1, 0] "defaults"
      (by decide) (by decide) (by decide)
      (by simp [tp, fn, oneMinus, npAnd, List.count_cons])
      (by simp [tp, fp, oneMinus, npAnd, List.count_cons])
      (by
        have h1 : tp [1, 0, 1, 1, 0] [1, 0, 0, 1, 0] = 2 := by
          simp [tp, npAnd, List.count_cons]
        have h2 : fp [1, 0, 1, 1, 0] [1, 0, 0, 1, 0] = 0 := by
          simp [fp, oneMinus, npAnd, List.count_cons]
        have h3 : fn [1, 0, 1, 1, 0] [1, 0, 0, 1, 0] = 1 := by
          simp [fn, oneMinus, npAnd, List.count_cons]
        rw [h1, h2, h3]
        norm_num)⟩

/-! ## Claim C5 -/

/-- Claim C5: a zero denominator is surfaced as an explicit undefined
metric (none, standing for the not-a-number report), never as the value 0:
when tp + fn = 0 recall is undefined, when tp + fp = 0 precision is
undefined, and when precision + recall = 0 F1 is undefined; in particular
on the all-zero sequences of the spec recall is undefined, not 0.  The
recall and precision definitions are spec-modelled (blanked TODO
placeholders in the source). -/
theorem evaluator_undefined_surfaced :
    (∀ ys ps : List ℚ,
      (tp ys ps + fn ys ps = 0 →
        recallM ys ps = none ∧ recallM ys ps ≠ some 0) ∧
      (tp ys ps + fp ys ps = 0 →
        precisionM ys ps = none ∧ precisionM ys ps ≠ some 0) ∧
      (∀ p r0 : ℚ, precisionM ys ps = some p → recallM ys ps = some r0 →
        p + r0 = 0 → f1M ys ps = none ∧ f1M ys ps ≠ some 0)) ∧
    (recallM (List.replicate 5 0) (List.replicate 5 0) = none ∧
      recallM (List.replicate 5 0) (List.replicate 5 0) ≠ some 0) := by
  have hgen : ∀ ys ps : List ℚ,
      (tp ys ps + fn ys ps = 0 →
        recallM ys ps = none ∧ recallM ys ps ≠ some 0) ∧
      (tp ys ps + fp ys ps = 0 →
        precisionM ys ps = none ∧ precisionM ys ps ≠ some 0) ∧
      (∀ p r0 : ℚ, precisionM ys ps = some p → recallM ys ps = some r0 →
        p + r0 = 0 → f1M ys ps = none ∧ f1M ys ps ≠ some 0) := by
    intro ys ps
    refine ⟨fun h => ?_, fun h => ?_, fun p r0 hp hr hpr => ?_⟩
    · have hnone : recallM ys ps = none := by
        unfold recallM
        rw [if_pos h]
      exact ⟨hnone, by rw [hnone]; exact Option.noConfusion⟩
    · have hnone : precisionM ys ps = none := by
        unfold precisionM
        rw [if_pos h]
      exact ⟨hnone, by rw [hnone]; exact Option.noConfusion⟩
    · have hnone : f1M ys ps = none := by
        unfold f1M
        rw [hp, hr]
        simp only []
        rw [if_pos hpr]
      exact ⟨hnone, by rw [hnone]; exact Option.noConfusion⟩
  exact ⟨hgen, (hgen (List.replicate 5 0) (List.replicate 5 0)).1
    (by simp [tp, fn, oneMinus, npAnd, List.count_cons, List.replicate])⟩

/-- Witness for C5 at the all-zero sequences. -/
theorem evaluator_undefined_surfaced_witness :
    tp [0, 0] [0, 0] + fn [0, 0] [0, 0] = 0 ∧
    recallM [0, 0] [0, 0] = none ∧ recallM [0, 0] [0, 0] ≠ some 0 :=
  ⟨by simp [tp, fn, oneMinus, npAnd, List.count_cons],
    ((evaluator_undefined_surfaced.1 [0, 0] [0, 0]).1
      (by simp [tp, fn, oneMinus, npAnd, List.count_cons])).1,
    ((evaluator_undefined_surfaced.1 [0, 0] [0, 0]).1
      (by simp [tp, fn, oneMinus, npAnd, List.count_cons])).2⟩

/-! ## Claim C7 -/

/-- Claim C7: feeding label sequences of different lengths into the
evaluator fails with the length mismatch error instead of returning a
MetricsResult (mirroring the ValueError numpy and pandas raise on
mismatched label and prediction arrays). -/
theorem evaluator_length_mismatch (ys ps : List ℚ) (m : String)
    (h : ys.length ≠ ps.length) :
    metricsOf ys ps m = Except.error EvalError.lengthMismatch := by
  unfold metricsOf
  rw [if_neg h]

/-- Witness for C7 at sequences of length 1 and 0. -/
theorem evaluator_length_mismatch_witness :
    (([1] : List ℚ).length ≠ ([] : List ℚ).length) ∧
    metricsOf [1] [] "defaults" = Except.error EvalError.lengthMismatch :=
  ⟨by decide, evaluator_length_mismatch [1] [] "defaults" (by decide)⟩

/-! ## Claim C8 -/

/-- Claim C8: when the remove call fails because the endpoint is absent,
delete_endpoint swallows the failure and completes as a no-op (same state,
already-deleted report); and a second invocation on the same identifier
also completes without error, reporting already deleted, whatever the
initial state was.  delete_endpoint is total (its return type has no error
case, mirroring the catch-all of the source), so neither call can
propagate a failure. -/
theorem reclaimer_idempotent (s : List String) (name : String) :
    (name ∉ s → serviceDelete s name = Except.error () ∧
      delete_endpoint s name = (s, DeleteOutcome.alreadyDeleted)) ∧
    delete_endpoint (delete_endpoint s name).1 name =
      ((delete_endpoint s name).1, DeleteOutcome.alreadyDeleted) := by
  constructor
  · intro habs
    have hsd : serviceDelete s name = Except.error () := by
      unfold serviceDelete
      rw [if_neg habs]
    refine ⟨hsd, ?_⟩
    unfold delete_endpoint
    rw [hsd]
  · by_cases hmem : name ∈ s
    · have hsd : serviceDelete s name =
          Except.ok (s.filter fun e => e != name) := by
        unfold serviceDelete
        rw [if_pos hmem]
      have h1 : delete_endpoint s name =
          (s.filter fun e => e != name, DeleteOutcome.deleted) := by
        unfold delete_endpoint
        rw [hsd]
      have h2 : name ∉ s.filter fun e => e != name := by
        simp [List.mem_filter]
      have hsd2 : serviceDelete (s.filter fun e => e != name) name =
          Except.error () := by
        unfold serviceDelete
        rw [if_neg h2]
      rw [h1]
      unfold delete_endpoint
      rw [hsd2]
    · have hsd : serviceDelete s name = Except.error () := by
        unfold serviceDelete
        rw [if_neg hmem]
      have h1 : delete_endpoint s name = (s, DeleteOutcome.alreadyDeleted) := by
        unfold delete_endpoint
        rw [hsd]
      rw [h1]
      unfold delete_endpoint
      rw [hsd]

/-- Witness for C8: deleting a missing endpoint succeeds as a no-op. -/
theorem reclaimer_idempotent_witness :
    ("endpoint-a" ∉ ([] : List String)) ∧
    serviceDelete [] "endpoint-a" = Except.error () ∧
    delete_endpoint [] "endpoint-a" = ([], DeleteOutcome.alreadyDeleted) :=
  ⟨by simp, ((reclaimer_idempotent [] "endpoint-a").1 (by simp)).1,
    ((reclaimer_idempotent [] "endpoint-a").1 (by simp)).2⟩

/-! ## Claim C9 -/

/-- Every row the splitter puts into either subset is a row of the original
dataset. -/
theorem train_rows_mem (seed : ℕ) (data : List Row) {r : Row}
    (hr : r ∈ train_rows seed data) : r ∈ data :=
  ((rawSplit_append_perm seed data).mem_iff).mp (List.mem_append_left _ hr)

theorem test_rows_mem (seed : ℕ) (data : List Row) {r : Row}
    (hr : r ∈ test_rows seed data) : r ∈ data :=
  ((rawSplit_append_perm seed data).mem_iff).mp (List.mem_append_right _ hr)

/-- getD through a map, at an index within bounds. -/
theorem map_getD_of_lt {α β : Type} (f : α → β) (l : List α) (i : ℕ) (d : β)
    (h : i < l.length) : (l.map f).getD i d = f l[i] := by
  rw [List.getD_eq_getElem?_getD,
    List.getElem?_eq_getElem (by simpa using h)]
  simp

/-- Claim C9: labels stay paired with their feature rows through the
shuffle and the partition.  The source slices the same shuffled matrix
for the feature columns and the label column, so the i-th feature row and
the i-th label of each subset come from one and the same record of the
original dataset. -/
theorem split_label_feature_alignment (seed : ℕ) (data : List Row) :
    (∀ i, i < (train_rows seed data).length →
      ∃ r : Row, r ∈ data ∧
        (train_features seed data).getD i [] = r.dropLast ∧
        (train_labels seed data).getD i 0 = r.getLastD 0) ∧
    (∀ i, i < (test_rows seed data).length →
      ∃ r : Row, r ∈ data ∧
        (test_features seed data).getD i [] = r.dropLast ∧
        (test_labels seed data).getD i 0 = r.getLastD 0) := by
  constructor
  · intro i hi
    refine ⟨(train_rows seed data)[i], ?_, ?_, ?_⟩
    · exact train_rows_mem seed data (List.getElem_mem hi)
    · exact map_getD_of_lt List.dropLast (train_rows seed data) i [] hi
    · exact map_getD_of_lt (fun r => r.getLastD 0) (train_rows seed data) i 0 hi
  · intro i hi
    refine ⟨(test_rows seed data)[i], ?_, ?_, ?_⟩
    · exact test_rows_mem seed data (List.getElem_mem hi)
    · exact map_getD_of_lt List.dropLast (test_rows seed data) i [] hi
    · exact map_getD_of_lt (fun r => r.getLastD 0) (test_rows seed data) i 0 hi

/-- Witness for C9, applying the alignment at a concrete dataset. -/
theorem split_label_feature_alignment_witness :
    (0 < (train_rows 0 [[(1 : ℚ), 0], [(2 : ℚ), 1], [(3 : ℚ), 0]]).length) ∧
    ∃ r : Row, r ∈ ([[(1 : ℚ), 0], [(2 : ℚ), 1], [(3 : ℚ), 0]] : List Row) ∧
      (train_features 0 [[(1 : ℚ), 0], [(2 : ℚ), 1], [(3 : ℚ), 0]]).getD 0 [] = r.dropLast ∧
      (train_labels 0 [[(1 : ℚ), 0], [(2 : ℚ), 1], [(3 : ℚ), 0]]).getD 0 0 = r.getLastD 0 :=
  ⟨by decide,
    (split_label_feature_alignment 0 [[(1 : ℚ), 0], [(2 : ℚ), 1], [(3 : ℚ), 0]]).1
      0 (by decide)⟩

/-! ## Claim C10 -/

/-- Claim C10: chunking the test features into 100 batches and
concatenating the per-batch predictions is lossless and order-preserving:
the resulting prediction sequence is exactly the row-wise prediction map,
its length equals the number of test rows, and its i-th entry is the
prediction for the i-th test row, so predictions stay index-aligned with
the true labels. -/
theorem chunked_predictions_aligned (pred : Row → ℚ) (xs : List Row) :
    test_preds pred xs = xs.map pred ∧
    (test_preds pred xs).length = xs.length ∧
    ∀ i, i < xs.length →
      (test_preds pred xs).getD i 0 = pred (xs.getD i []) := by
  refine ⟨test_preds_eq_map pred xs, ?_, ?_⟩
  · rw [test_preds_eq_map]
    exact List.length_map xs pred
  · intro i hi
    rw [test_preds_eq_map, map_getD_of_lt pred xs i 0 hi,
      List.getD_eq_getElem?_getD, List.getElem?_eq_getElem hi]
    rfl

/-- Witness for C10 at a concrete feature list and a concrete per-row
prediction function. -/
theorem chunked_predictions_aligned_witness :
    (0 < ([[(5 : ℚ)], [(7 : ℚ)]] : List Row).length) ∧
    (test_preds (fun r => r.getLastD 0) [[(5 : ℚ)], [(7 : ℚ)]]).getD 0 0 =
      (fun r : Row => r.getLastD 0) (([[(5 : ℚ)], [(7 : ℚ)]] : List Row).getD 0 []) :=
  ⟨by decide,
    (chunked_predictions_aligned (fun r => r.getLastD 0) [[(5 : ℚ)], [(7 : ℚ)]]).2.2
      0 (by decide)⟩

end Workshop
